import Mathlib

set_option autoImplicit false

namespace MiniAutoML

/-
Formal model of `src/interfaces.py` of the Mini_AutoML repository.

The file defines four units:
  * `PipelineAdapter` (lines 9-49): a universal adapter around an arbitrary
    object exposing a subset of fit / transform / predict / predict_proba /
    get_params;
  * `BasePreProcessor` (lines 55-89): the abstract stage contract with a
    derived `fit_transform` and a deep, namespaced `get_params`;
  * `ShapeChangerPreProcessor` (lines 106-128): a stage that records feature
    lineage in `_input_features` / `_new_features` / `_removed_features`;
  * `BaseModel` (lines 130-163): the model contract whose default
    `predict_proba` raises `NotImplementedError`.

Python dictionaries are modelled as insertion-ordered association lists with
unique keys, exactly the observable behaviour of `dict` (assignment to an
existing key replaces the value in place and keeps the position; assignment to
a fresh key appends).  Python exceptions are modelled with `Except`: a method
that can raise returns `Except E A`, and a raise-free execution is `.ok`.
-/

/- ===================================================================
   Parameter introspection of `BasePreProcessor.get_params`
   (src/interfaces.py, lines 81-89)
   =================================================================== -/

mutual
/-- Value held by one field of a stage's `__dict__`: a scalar hyperparameter
(modelled as a rational number, enough to express values such as `0.1` and
`2`) or a nested stage, mirroring the `isinstance(v, BasePreProcessor)` test
on line 85. -/
inductive PVal : Type where
  | scalar : ℚ → PVal
  | nested : PStage → PVal
  deriving DecidableEq

/-- A `BasePreProcessor` instance, abstracted to its `__dict__`: the ordered
mapping of field names to values that `get_params` reflects over on line 82. -/
inductive PStage : Type where
  | mk : PFields → PStage
  deriving DecidableEq

/-- Ordered field list of a Python `__dict__` (insertion order preserved; keys
of a dictionary actually produced by Python are unique). -/
inductive PFields : Type where
  | nil : PFields
  | cons : String → PVal → PFields → PFields
  deriving DecidableEq
end

/-- Python's `k.startswith("_")` applied to a field name: true exactly when
the first character is an underscore (false on the empty string). -/
def pyIsInternal (k : String) : Bool :=
  match k.data with
  | [] => false
  | c :: _ => c = '_'

/-- Assignment `d[k] = v` on a Python dictionary: replace the value in place
when the key is present (keeping its position), otherwise append the new
entry at the end. -/
def dictInsert (d : List (String × PVal)) (k : String) (v : PVal) :
    List (String × PVal) :=
  if d.any (fun kv => kv.1 == k) then
    d.map (fun kv => if kv.1 == k then (kv.1, v) else kv)
  else
    d ++ [(k, v)]

/-- Inner loop of `get_params` (lines 87-88): for every entry `(nk, nv)` of a
nested stage's flattened parameters, execute `params[f"{k}__{nk}"] = nv`. -/
def insertFlattened (k : String) (nestedParams : List (String × PVal))
    (d : List (String × PVal)) : List (String × PVal) :=
  nestedParams.foldl (fun acc kv => dictInsert acc (k ++ "__" ++ kv.1) kv.2) d

/-- Plain association list of a field dictionary. -/
def PFields.toList : PFields → List (String × PVal)
  | .nil => []
  | .cons k v rest => (k, v) :: rest.toList

/-- Field names of a dictionary, in order. -/
def PFields.keys : PFields → List String
  | .nil => []
  | .cons k _ rest => k :: rest.keys

/-- Line 82: `{k: v for k, v in self.__dict__.items() if not k.startswith("_")}`. -/
def PFields.publicList : PFields → List (String × PVal)
  | .nil => []
  | .cons k v rest =>
    if pyIsInternal k then rest.publicList else (k, v) :: rest.publicList

mutual
/-- Lines 81-89, `BasePreProcessor.get_params`: collect the non-internal
fields, and when `deep` holds, additionally flatten every nested stage's own
deep parameters into the same dictionary under `f"{k}__{nk}"` keys. -/
def PStage.get_params : PStage → Bool → List (String × PVal)
  | .mk fields, deep =>
    let params := fields.publicList
    if deep then PFields.flattenLoop fields params else params
termination_by structural s _ => s

/-- Lines 84-88: the `for k, v in params.copy().items()` loop.  Iterating over
all fields while skipping internal names visits exactly the entries of the
filtered copy, in the same order. -/
def PFields.flattenLoop : PFields → List (String × PVal) → List (String × PVal)
  | .nil, acc => acc
  | .cons k v rest, acc =>
    if pyIsInternal k then PFields.flattenLoop rest acc
    else
      match v with
      | .nested t =>
          PFields.flattenLoop rest (insertFlattened k (t.get_params true) acc)
      | .scalar _ => PFields.flattenLoop rest acc
termination_by structural fs _ => fs
end

/- Specification-side descriptions of the flattening, used to state what the
code's `get_params` produces on well-formed compositions. -/

mutual
/-- Expected deep-parameter dictionary of a stage none of whose flattened keys
collide: the stage's own fields followed by the prefixed flattenings of its
nested stages, in field order. -/
def PStage.deepEntries : PStage → List (String × PVal)
  | .mk fs => fs.toList ++ fs.flatEntries
termination_by structural s => s

/-- Entries contributed by the flattening loop: for each nested-stage field
`k ↦ t`, the deep entries of `t` re-keyed under the prefix `k ++ "__"`. -/
def PFields.flatEntries : PFields → List (String × PVal)
  | .nil => []
  | .cons k v rest =>
    (match v with
     | .scalar _ => []
     | .nested t => t.deepEntries.map (fun kv => (k ++ "__" ++ kv.1, kv.2))) ++
      rest.flatEntries
termination_by structural fs => fs
end

mutual
/-- Leaf hyperparameters of a composition, each with its full segment path:
one segment per nesting level, so the length of the segment list is exactly
the leaf's nesting depth. -/
def PStage.leafSegs : PStage → List (List String × ℚ)
  | .mk fs => fs.leafSegs
termination_by structural s => s

/-- Leaf hyperparameters contributed by a field list. -/
def PFields.leafSegs : PFields → List (List String × ℚ)
  | .nil => []
  | .cons k v rest =>
    (match v with
     | .scalar q => [([k], q)]
     | .nested t => t.leafSegs.map (fun pq => (k :: pq.1, pq.2))) ++
      rest.leafSegs
termination_by structural fs => fs
end

/-- Delimiter-joined rendering of a segment path, as built by the code's
repeated `f"{k}__{nk}"` prefixing. -/
def joinPath : List String → String
  | [] => ""
  | [k] => k
  | k :: rest => k ++ "__" ++ joinPath rest

/-- Field name that is a single identifier segment: nonempty and free of the
underscore character, so it neither is filtered as internal nor can smuggle
the reserved `__` delimiter into a path. -/
def goodName (k : String) : Bool :=
  !k.data.isEmpty && k.data.all (fun c => c ≠ '_')

mutual
/-- Well-formedness of a single field value: scalars always, nested stages
when they are themselves well-formed. -/
def PVal.wellFormed : PVal → Bool
  | .scalar _ => true
  | .nested t => t.wellFormed
termination_by structural v => v

/-- Well-formed composition: at every level all field names are single
identifier segments and are pairwise distinct.  Such a composition can have
no flattened-path collision. -/
def PStage.wellFormed : PStage → Bool
  | .mk fs => fs.wellFormed && decide fs.keys.Nodup
termination_by structural s => s

/-- Well-formedness of a field list (names good, values well-formed). -/
def PFields.wellFormed : PFields → Bool
  | .nil => true
  | .cons k v rest => goodName k && v.wellFormed && rest.wellFormed
termination_by structural fs => fs
end

/- Concrete stages used by the introspection claims. -/

/-- Child stage `A` of the spec's example scenario: one hyperparameter
`alpha = 0.1` (`mkRat 1 10` is the rational `0.1`). -/
def stageA : PStage := .mk (.cons "alpha" (.scalar (mkRat 1 10)) .nil)

/-- Child stage `B` of the spec's example scenario: one hyperparameter
`beta = 2`. -/
def stageB : PStage := .mk (.cons "beta" (.scalar 2) .nil)

/-- Parent stage of the spec's example scenario, holding `A` and `B` under the
field names `a` and `b`. -/
def exampleStage : PStage :=
  .mk (.cons "a" (.nested stageA) (.cons "b" (.nested stageB) .nil))

/-- Nested stage whose single hyperparameter `b = 7` flattens, under the field
name `a`, to the path `a__b`. -/
def innerStage : PStage := .mk (.cons "b" (.scalar 7) .nil)

/-- Stage exhibiting a path collision: its own field literally named `a__b`
(value `5`) and its nested stage under field `a` (whose parameter `b`
flattens to `a__b`, value `7`) produce the same final path from two different
fields. -/
def collideStage : PStage :=
  .mk (.cons "a__b" (.scalar 5) (.cons "a" (.nested innerStage) .nil))

/- ===================================================================
   `BasePreProcessor.fit` / `transform` / `fit_transform`
   (src/interfaces.py, lines 63-72)
   =================================================================== -/

/-- Behavioural surface of a concrete `BasePreProcessor` subclass: `σ` is the
instance state, `τ` the table type, `lbl` the label-vector type.  `fit`
re-learns and returns the mutated instance (the source's `return self`
contract on line 65); `transform` maps a table to a table without touching
the instance. -/
structure BasePreProcessor (σ τ lbl : Type) where
  fit : σ → τ → Option lbl → σ
  transform : σ → τ → τ

/-- Lines 71-72, the inherited default: `return self.fit(X, y).transform(X)`.
The result pairs the mutated instance with the produced table. -/
def BasePreProcessor.fit_transform {σ τ lbl : Type} (m : BasePreProcessor σ τ lbl)
    (s : σ) (X : τ) (y : Option lbl) : σ × τ :=
  let fitted := m.fit s X y
  (fitted, m.transform fitted X)

/-- Specification-side description, stated from the spec's words for the
refinement claim: "first calling fit(X, y) and then transform(X) on the same
instance". -/
def fitThenTransformSpec {σ τ lbl : Type} (m : BasePreProcessor σ τ lbl)
    (s : σ) (X : τ) (y : Option lbl) : σ × τ :=
  let afterFit := m.fit s X y
  let out := m.transform afterFit X
  (afterFit, out)

/- ===================================================================
   `ShapeChangerPreProcessor` (src/interfaces.py, lines 106-128)
   =================================================================== -/

/-- Error kind of the spec's "no transform has run yet" condition.  The source
code of `interfaces.py` defines and raises no such error; the type exists so
that the lineage accessors can be given a raise-capable signature. -/
inductive LineageError where
  | notFittedError
  deriving DecidableEq

/-- Instance state of `ShapeChangerPreProcessor`: the four fields initialised
by `__init__` (lines 60-61 via `super().__init__()`, and lines 112-116). -/
structure ShapeChangerPreProcessor where
  _feature_names_out : List String
  _input_features : List String
  _new_features : List String
  _removed_features : List String
  deriving DecidableEq

/-- Lines 112-116: a freshly constructed instance, every lineage list set to
the empty list. -/
def ShapeChangerPreProcessor.init : ShapeChangerPreProcessor :=
  ⟨[], [], [], []⟩

/-- Line 119-120 default body: `return self._input_features`.  The method can
signal no error; it always returns its stored list. -/
def ShapeChangerPreProcessor.get_original_features
    (s : ShapeChangerPreProcessor) : Except LineageError (List String) :=
  .ok s._input_features

/-- Line 123-124 default body: `return self._new_features`. -/
def ShapeChangerPreProcessor.get_new_features
    (s : ShapeChangerPreProcessor) : Except LineageError (List String) :=
  .ok s._new_features

/-- Line 127-128 default body: `return self._removed_features`. -/
def ShapeChangerPreProcessor.get_removed_features
    (s : ShapeChangerPreProcessor) : Except LineageError (List String) :=
  .ok s._removed_features

/- ===================================================================
   `BaseModel` (src/interfaces.py, lines 130-163)
   =================================================================== -/

/-- Error raised by the default `predict_proba` (line 155). -/
inductive ModelError where
  | notImplementedError (msg : String)
  deriving DecidableEq

/-- A concrete `BaseModel` subclass: `fit` and `predict` are abstract and so
always supplied by the subclass; `predict_proba_impl` is the subclass's
override of `predict_proba` when it has one, `none` when the inherited
default of lines 151-155 is in force. -/
structure BaseModel (σ τ ρ lbl : Type) where
  fit : σ → τ → lbl → σ
  predict : σ → τ → ρ
  predict_proba_impl : Option (σ → τ → Except ModelError ρ)

/-- Dynamic dispatch of `predict_proba`: the override when present, otherwise
the inherited default body
`raise NotImplementedError("This model does not support probability predictions")`. -/
def BaseModel.predict_proba {σ τ ρ lbl : Type} (m : BaseModel σ τ ρ lbl)
    (s : σ) (X : τ) : Except ModelError ρ :=
  match m.predict_proba_impl with
  | some f => f s X
  | none =>
      .error (.notImplementedError
        "This model does not support probability predictions")

/- ===================================================================
   `PipelineAdapter` (src/interfaces.py, lines 9-49)
   =================================================================== -/

/-- Error raised by the adapter: Python's `AttributeError`, either raised
explicitly (lines 36 and 41) or by attribute lookup on a missing method. -/
inductive AdapterError where
  | attributeError (msg : String)
  deriving DecidableEq

/-- An arbitrary wrapped object, as the adapter sees it through `hasattr`
probing: a state of type `σ` plus an optional implementation for each of the
five probed capabilities (`none` exactly when `hasattr` is false).  `τ` is
the table type, `lbl` the label type, `ρ` the prediction type, `π` the
parameter-value type of the wrapped object's own `get_params`.  A method that
mutates returns the new state; `fit_transform` additionally returns the
transformed table. -/
structure PyObject (σ τ lbl ρ π : Type) where
  state : σ
  fit_transform : Option (σ → τ → Option lbl → σ × τ)
  fit : Option (σ → τ → Option lbl → σ)
  transform : Option (σ → τ → τ)
  predict : Option (σ → τ → ρ)
  predict_proba : Option (σ → τ → ρ)
  get_params : Option (σ → Bool → List (String × π))

/-- Lines 15-19: the adapter holds exactly one reference, `self.obj`. -/
structure PipelineAdapter (σ τ lbl ρ π : Type) where
  obj : PyObject σ τ lbl ρ π

/-- Lines 21-26: `fit` calls the wrapped object's `fit_transform` when present
(discarding the table it returns), otherwise its `fit`; either way the call
mutates only the wrapped object and the adapter returns itself (`return
self`).  When the wrapped object has neither method, the attribute lookup
`self.obj.fit` raises `AttributeError`. -/
def PipelineAdapter.fit {σ τ lbl ρ π : Type} (a : PipelineAdapter σ τ lbl ρ π)
    (X : τ) (y : Option lbl) :
    Except AdapterError (PipelineAdapter σ τ lbl ρ π) :=
  match a.obj.fit_transform with
  | some ft => .ok ⟨{ a.obj with state := (ft a.obj.state X y).1 }⟩
  | none =>
    match a.obj.fit with
    | some f => .ok ⟨{ a.obj with state := f a.obj.state X y }⟩
    | none => .error (.attributeError "fit")

/-- Lines 28-31: delegate to the wrapped object's `transform` when present,
otherwise return the input table unchanged. -/
def PipelineAdapter.transform {σ τ lbl ρ π : Type}
    (a : PipelineAdapter σ τ lbl ρ π) (X : τ) : τ :=
  match a.obj.transform with
  | some f => f a.obj.state X
  | none => X

/-- Lines 33-36: delegate to the wrapped object's `predict` when present,
otherwise `raise AttributeError("Underlying object has no predict method")`. -/
def PipelineAdapter.predict {σ τ lbl ρ π : Type}
    (a : PipelineAdapter σ τ lbl ρ π) (X : τ) : Except AdapterError ρ :=
  match a.obj.predict with
  | some f => .ok (f a.obj.state X)
  | none => .error (.attributeError "Underlying object has no predict method")

/-- Lines 38-41: delegate to the wrapped object's `predict_proba` when
present, otherwise
`raise AttributeError("Underlying object has no predict_proba method")`. -/
def PipelineAdapter.predict_proba {σ τ lbl ρ π : Type}
    (a : PipelineAdapter σ τ lbl ρ π) (X : τ) : Except AdapterError ρ :=
  match a.obj.predict_proba with
  | some f => .ok (f a.obj.state X)
  | none =>
      .error (.attributeError "Underlying object has no predict_proba method")

/-- Lines 43-49: when the wrapped object exposes `get_params`, a deep request
returns its deep parameters re-keyed as `f"obj__{k}"` (a dictionary
comprehension over `self.obj.get_params(deep=True).items()`; since the
re-keying is injective and the source dictionary has unique keys, it is the
order-preserving map below); a shallow request returns `{"obj": self.obj}`.
Without the capability, the result is `{"obj": self.obj}` for every `deep`.
A parameter value is either a value of the wrapped object's own parameter
dictionary (`Sum.inl`) or the wrapped object itself (`Sum.inr`). -/
def PipelineAdapter.get_params {σ τ lbl ρ π : Type}
    (a : PipelineAdapter σ τ lbl ρ π) (deep : Bool) :
    List (String × (π ⊕ PyObject σ τ lbl ρ π)) :=
  match a.obj.get_params with
  | some g =>
    if deep then
      (g a.obj.state true).map (fun kv => ("obj__" ++ kv.1, Sum.inl kv.2))
    else
      [("obj", Sum.inr a.obj)]
  | none => [("obj", Sum.inr a.obj)]

/-- Words of an error message (split on spaces), used to state that a message
names a missing capability. -/
def msgWords (s : String) : List String :=
  (s.data.splitOn ' ').map String.mk

/- Concrete wrapped objects used to instantiate the adapter claims.  Tables,
labels and predictions are all modelled as natural numbers; states count how
often each mutating method ran, so the delegations are observable. -/

/-- Wrapped object exposing none of the five probed capabilities. -/
def bareObject : PyObject Nat Nat Nat Nat Nat :=
  ⟨0, none, none, none, none, none, none⟩

/-- Wrapped object exposing every capability: `fit_transform` adds 10 to the
state and returns `X + 1`, `fit` adds 1, `transform` returns `X + 2`,
`predict` returns `X + 3`, `predict_proba` returns `X + 4`, and `get_params`
exposes the single deep parameter `("alpha", 7)`. -/
def richObject : PyObject Nat Nat Nat Nat Nat :=
  ⟨5,
   some (fun s X _ => (s + 10, X + 1)),
   some (fun s _ _ => s + 1),
   some (fun _ X => X + 2),
   some (fun _ X => X + 3),
   some (fun _ X => X + 4),
   some (fun _ _ => [("alpha", 7)])⟩

/-- Wrapped object exposing only plain `fit`. -/
def fitOnlyObject : PyObject Nat Nat Nat Nat Nat :=
  ⟨5, none, some (fun s _ _ => s + 1), none, none, none, none⟩

/-- Concrete `BaseModel` with no `predict_proba` override. -/
def plainModel : BaseModel Nat Nat Nat Nat :=
  ⟨fun s _ _ => s, fun _ X => X, none⟩

/- ===================================================================
   Theorems
   =================================================================== -/

/- Helper lemmas on names, paths and dictionary insertion, feeding the
characterisation of `get_params(deep=true)` on well-formed compositions. -/

theorem goodName_chars {k : String} (h : goodName k = true) :
    ∀ c ∈ k.data, c ≠ '_' := by
  simp only [goodName, Bool.and_eq_true, List.all_eq_true,
    decide_eq_true_eq] at h
  exact h.2

theorem goodName_not_internal {k : String} (h : goodName k = true) :
    pyIsInternal k = false := by
  unfold pyIsInternal
  split
  · rfl
  · next c cs hd =>
    have hc : c ∈ k.data := by rw [hd]; exact List.mem_cons_self c cs
    simpa using goodName_chars h c hc

theorem goodName_no_underscore {k : String} (h : goodName k = true) :
    '_' ∉ k.data :=
  fun hm => goodName_chars h '_' hm rfl

theorem data_prefixed (k p : String) :
    (k ++ "__" ++ p).data = k.data ++ '_' :: '_' :: p.data := by
  rw [String.data_append, String.data_append, List.append_assoc]
  rfl

theorem underscore_mem_prefixed (k p : String) :
    '_' ∈ (k ++ "__" ++ p).data := by
  rw [data_prefixed]
  simp

theorem goodName_ne_prefixed {k k' p : String} (hk : goodName k = true) :
    k ≠ k' ++ "__" ++ p := by
  intro he
  have hm := goodName_no_underscore hk
  rw [he] at hm
  exact hm (underscore_mem_prefixed k' p)

theorem underscoreFree_parse {r1 r2 : List Char} :
    ∀ {l1 l2 : List Char}, (∀ c ∈ l1, c ≠ '_') → (∀ c ∈ l2, c ≠ '_') →
    l1 ++ '_' :: '_' :: r1 = l2 ++ '_' :: '_' :: r2 → l1 = l2 ∧ r1 = r2 := by
  intro l1
  induction l1 with
  | nil =>
    intro l2 _ h2 h
    cases l2 with
    | nil => simpa using h
    | cons c t =>
      simp only [List.nil_append, List.cons_append, List.cons.injEq] at h
      exact absurd h.1.symm (h2 c (List.mem_cons_self c t))
  | cons c t ih =>
    intro l2 h1 h2 h
    cases l2 with
    | nil =>
      simp only [List.nil_append, List.cons_append, List.cons.injEq] at h
      exact absurd h.1 (h1 c (List.mem_cons_self c t))
    | cons c2 t2 =>
      simp only [List.cons_append, List.cons.injEq] at h
      obtain ⟨hc, ht⟩ := h
      obtain ⟨he, hr⟩ :=
        ih (fun x hx => h1 x (List.mem_cons_of_mem c hx))
          (fun x hx => h2 x (List.mem_cons_of_mem c2 hx)) ht
      exact ⟨by rw [hc, he], hr⟩

theorem prefixed_inj {k1 k2 p1 p2 : String}
    (h1 : goodName k1 = true) (h2 : goodName k2 = true)
    (h : k1 ++ "__" ++ p1 = k2 ++ "__" ++ p2) : k1 = k2 ∧ p1 = p2 := by
  have hd : k1.data ++ '_' :: '_' :: p1.data =
      k2.data ++ '_' :: '_' :: p2.data := by
    rw [← data_prefixed, ← data_prefixed, h]
  obtain ⟨e1, e2⟩ :=
    underscoreFree_parse (goodName_chars h1) (goodName_chars h2) hd
  exact ⟨String.ext e1, String.ext e2⟩

theorem dictInsert_of_not_mem {d : List (String × PVal)} {k : String}
    (v : PVal) (h : k ∉ d.map Prod.fst) :
    dictInsert d k v = d ++ [(k, v)] := by
  have hc : ¬ (d.any (fun kv => kv.1 == k) = true) := by
    simp only [List.any_eq_true, beq_iff_eq]
    rintro ⟨kv, hm, he⟩
    exact h (List.mem_map.mpr ⟨kv, hm, he⟩)
  rw [dictInsert, if_neg hc]

theorem map_fst_prefixed (k : String) (l : List (String × PVal)) :
    (l.map (fun kv => (k ++ "__" ++ kv.1, kv.2))).map Prod.fst =
      l.map (fun kv => k ++ "__" ++ kv.1) := by
  simp [List.map_map]

theorem insertFlattened_fresh (k : String) :
    ∀ (ps d : List (String × PVal)),
    (∀ p ∈ ps, (k ++ "__" ++ p.1) ∉ d.map Prod.fst) →
    (ps.map (fun p => k ++ "__" ++ p.1)).Nodup →
    insertFlattened k ps d =
      d ++ ps.map (fun p => (k ++ "__" ++ p.1, p.2)) := by
  intro ps
  induction ps with
  | nil => intro d _ _; simp [insertFlattened]
  | cons p ps ih =>
    intro d hfresh hnodup
    have h1 : insertFlattened k (p :: ps) d =
        insertFlattened k ps (dictInsert d (k ++ "__" ++ p.1) p.2) := rfl
    rw [h1, dictInsert_of_not_mem p.2 (hfresh p (List.mem_cons_self p ps))]
    rw [ih (d ++ [(k ++ "__" ++ p.1, p.2)]) ?_ (List.Nodup.of_cons hnodup)]
    · simp
    · intro q hq
      simp only [List.map_append, List.mem_append, List.map_cons,
        List.map_nil, List.mem_singleton]
      rintro (hm | he)
      · exact hfresh q (List.mem_cons_of_mem p hq) hm
      · have hne : k ++ "__" ++ p.1 ≠ k ++ "__" ++ q.1 := by
          intro hcontra
          apply (List.nodup_cons.mp hnodup).1
          show k ++ "__" ++ p.1 ∈ ps.map (fun p => k ++ "__" ++ p.1)
          rw [hcontra]
          exact List.mem_map.mpr ⟨q, hq, rfl⟩
        exact hne he.symm

theorem PFields.map_fst_toList (fs : PFields) :
    fs.toList.map Prod.fst = fs.keys := by
  match fs with
  | .nil => simp [PFields.toList, PFields.keys]
  | .cons k v rest =>
    simp [PFields.toList, PFields.keys, PFields.map_fst_toList rest]
termination_by structural fs

theorem PFields.wellFormed_cons {k : String} {v : PVal} {rest : PFields}
    (h : (PFields.cons k v rest).wellFormed = true) :
    goodName k = true ∧ v.wellFormed = true ∧ rest.wellFormed = true := by
  simpa [PFields.wellFormed, Bool.and_eq_true, and_assoc] using h

theorem PVal.wellFormed_nested {t : PStage}
    (h : (PVal.nested t).wellFormed = true) : t.wellFormed = true := by
  simpa [PVal.wellFormed] using h

theorem PFields.publicList_eq_toList (fs : PFields)
    (h : fs.wellFormed = true) : fs.publicList = fs.toList := by
  match fs with
  | .nil => rfl
  | .cons k v rest =>
    obtain ⟨hk, _, hrest⟩ := PFields.wellFormed_cons h
    simp [PFields.publicList, PFields.toList, goodName_not_internal hk,
      PFields.publicList_eq_toList rest hrest]
termination_by structural fs

theorem PFields.keys_good (fs : PFields) (h : fs.wellFormed = true) :
    ∀ k ∈ fs.keys, goodName k = true := by
  match fs with
  | .nil => simp [PFields.keys]
  | .cons k v rest =>
    obtain ⟨hk, _, hrest⟩ := PFields.wellFormed_cons h
    intro k' hk'
    rcases List.mem_cons.mp hk' with he | hm
    · exact he ▸ hk
    · exact PFields.keys_good rest hrest k' hm
termination_by structural fs

theorem PFields.flatKeys_underscore (fs : PFields) :
    ∀ key ∈ fs.flatEntries.map Prod.fst, '_' ∈ key.data := by
  match fs with
  | .nil => simp [PFields.flatEntries]
  | .cons k v rest =>
    intro key hkey
    cases v with
    | scalar q =>
      exact PFields.flatKeys_underscore rest key hkey
    | nested t =>
      have h' : key ∈
          (t.deepEntries.map (fun kv => (k ++ "__" ++ kv.1, kv.2)) ++
            rest.flatEntries).map Prod.fst := hkey
      rw [List.map_append] at h'
      rcases List.mem_append.mp h' with hh | hr
      · rw [map_fst_prefixed] at hh
        obtain ⟨kv, _, he⟩ := List.mem_map.mp hh
        exact he ▸ underscore_mem_prefixed k kv.1
      · exact PFields.flatKeys_underscore rest key hr
termination_by structural fs

theorem PFields.flatKeys_shape (fs : PFields) (h : fs.wellFormed = true) :
    ∀ key ∈ fs.flatEntries.map Prod.fst,
      ∃ k' p', k' ∈ fs.keys ∧ goodName k' = true ∧
        key = k' ++ "__" ++ p' := by
  match fs with
  | .nil => simp [PFields.flatEntries]
  | .cons k v rest =>
    obtain ⟨hk, _, hrest⟩ := PFields.wellFormed_cons h
    intro key hkey
    cases v with
    | scalar q =>
      obtain ⟨k', p', hm, hg, he⟩ :=
        PFields.flatKeys_shape rest hrest key hkey
      exact ⟨k', p', List.mem_cons_of_mem k hm, hg, he⟩
    | nested t =>
      have h' : key ∈
          (t.deepEntries.map (fun kv => (k ++ "__" ++ kv.1, kv.2)) ++
            rest.flatEntries).map Prod.fst := hkey
      rw [List.map_append] at h'
      rcases List.mem_append.mp h' with hh | hr
      · rw [map_fst_prefixed] at hh
        obtain ⟨kv, _, he⟩ := List.mem_map.mp hh
        exact ⟨k, kv.1, List.mem_cons_self k rest.keys, hk, he.symm⟩
      · obtain ⟨k', p', hm, hg, he⟩ :=
          PFields.flatKeys_shape rest hrest key hr
        exact ⟨k', p', List.mem_cons_of_mem k hm, hg, he⟩
termination_by structural fs

mutual
theorem PStage.deepKeys_nodup (s : PStage) (h : s.wellFormed = true) :
    (s.deepEntries.map Prod.fst).Nodup := by
  match s with
  | .mk fs =>
    have hw : fs.wellFormed = true ∧ fs.keys.Nodup := by
      simpa [PStage.wellFormed, Bool.and_eq_true] using h
    have he : (PStage.mk fs).deepEntries = fs.toList ++ fs.flatEntries := rfl
    rw [he, List.map_append, PFields.map_fst_toList]
    rw [List.nodup_append]
    refine ⟨hw.2, PFields.flatKeys_nodup fs hw.1 hw.2, ?_⟩
    intro a ha hb
    have hg := PFields.keys_good fs hw.1 a ha
    exact goodName_no_underscore hg (PFields.flatKeys_underscore fs a hb)
termination_by structural s

theorem PFields.flatKeys_nodup (fs : PFields) (h : fs.wellFormed = true)
    (hkeys : fs.keys.Nodup) : (fs.flatEntries.map Prod.fst).Nodup := by
  match fs with
  | .nil => simp [PFields.flatEntries]
  | .cons k v rest =>
    obtain ⟨hk, hv, hrest⟩ := PFields.wellFormed_cons h
    have hkr : k ∉ rest.keys ∧ rest.keys.Nodup := by
      simpa [PFields.keys, List.nodup_cons] using hkeys
    cases v with
    | scalar q =>
      exact PFields.flatKeys_nodup rest hrest hkr.2
    | nested t =>
      show ((t.deepEntries.map (fun kv => (k ++ "__" ++ kv.1, kv.2)) ++
        rest.flatEntries).map Prod.fst).Nodup
      rw [List.map_append, List.nodup_append]
      refine ⟨?_, PFields.flatKeys_nodup rest hrest hkr.2, ?_⟩
      · rw [map_fst_prefixed]
        have hnt : (t.deepEntries.map Prod.fst).Nodup :=
          PStage.deepKeys_nodup t (PVal.wellFormed_nested hv)
        have he : (t.deepEntries.map (fun kv => k ++ "__" ++ kv.1)) =
            (t.deepEntries.map Prod.fst).map (fun x => k ++ "__" ++ x) := by
          simp [List.map_map]
        rw [he]
        refine List.Nodup.map ?_ hnt
        intro x y hxy
        exact (prefixed_inj hk hk hxy).2
      · intro a ha hb
        rw [map_fst_prefixed] at ha
        obtain ⟨kv, _, he⟩ := List.mem_map.mp ha
        obtain ⟨k', p', hm, hg, he'⟩ :=
          PFields.flatKeys_shape rest hrest a hb
        have hkk : k = k' := (prefixed_inj hk hg (he.symm ▸ he')).1
        exact hkr.1 (hkk ▸ hm)
termination_by structural fs
end

mutual
theorem PStage.get_params_deep_eq (s : PStage) (h : s.wellFormed = true) :
    s.get_params true = s.deepEntries := by
  match s with
  | .mk fs =>
    have hw : fs.wellFormed = true ∧ fs.keys.Nodup := by
      simpa [PStage.wellFormed, Bool.and_eq_true] using h
    have h1 : (PStage.mk fs).get_params true =
        PFields.flattenLoop fs fs.publicList := rfl
    have h2 : (PStage.mk fs).deepEntries = fs.toList ++ fs.flatEntries := rfl
    rw [h1, h2, PFields.publicList_eq_toList fs hw.1]
    apply PFields.flattenLoop_append fs fs.toList hw.1
    have hn := PStage.deepKeys_nodup (PStage.mk fs) h
    rw [show (PStage.mk fs).deepEntries = fs.toList ++ fs.flatEntries from rfl,
      List.map_append] at hn
    exact hn
termination_by structural s

theorem PFields.flattenLoop_append (fs : PFields)
    (acc : List (String × PVal)) (h : fs.wellFormed = true)
    (hnd : (acc.map Prod.fst ++ fs.flatEntries.map Prod.fst).Nodup) :
    PFields.flattenLoop fs acc = acc ++ fs.flatEntries := by
  match fs with
  | .nil => simp [PFields.flattenLoop, PFields.flatEntries]
  | .cons k v rest =>
    obtain ⟨hk, hv, hrest⟩ := PFields.wellFormed_cons h
    have hki : pyIsInternal k = false := goodName_not_internal hk
    cases v with
    | scalar q =>
      have h1 : PFields.flattenLoop (PFields.cons k (PVal.scalar q) rest) acc =
          PFields.flattenLoop rest acc := by
        simp [PFields.flattenLoop, hki]
      have h2 : (PFields.cons k (PVal.scalar q) rest).flatEntries =
          rest.flatEntries := by
        simp [PFields.flatEntries]
      rw [h1, h2]
      exact PFields.flattenLoop_append rest acc hrest (by rwa [h2] at hnd)
    | nested t =>
      have h1 : PFields.flattenLoop (PFields.cons k (PVal.nested t) rest) acc =
          PFields.flattenLoop rest (insertFlattened k (t.get_params true) acc) := by
        simp [PFields.flattenLoop, hki]
      have hgp : t.get_params true = t.deepEntries :=
        PStage.get_params_deep_eq t (PVal.wellFormed_nested hv)
      have h2 : (PFields.cons k (PVal.nested t) rest).flatEntries =
          t.deepEntries.map (fun kv => (k ++ "__" ++ kv.1, kv.2)) ++
            rest.flatEntries := rfl
      rw [h2, List.map_append] at hnd
      have hnd' := hnd
      rw [map_fst_prefixed] at hnd'
      have hsplit := List.nodup_append.mp hnd'
      have hins : insertFlattened k (t.get_params true) acc =
          acc ++ t.deepEntries.map (fun kv => (k ++ "__" ++ kv.1, kv.2)) := by
        rw [hgp]
        apply insertFlattened_fresh
        · intro p hp hmem
          exact hsplit.2.2 hmem
            (List.mem_append_left _ (List.mem_map.mpr ⟨p, hp, rfl⟩))
        · exact (List.nodup_append.mp hsplit.2.1).1
      have hrec : PFields.flattenLoop rest
            (acc ++ t.deepEntries.map (fun kv => (k ++ "__" ++ kv.1, kv.2))) =
          (acc ++ t.deepEntries.map (fun kv => (k ++ "__" ++ kv.1, kv.2))) ++
            rest.flatEntries := by
        apply PFields.flattenLoop_append rest _ hrest
        rw [List.map_append, map_fst_prefixed, List.append_assoc]
        exact hnd'
      rw [h1, hins, hrec, h2, List.append_assoc]
termination_by structural fs
end

theorem PFields.leafSegs_ne_nil (fs : PFields) :
    ∀ pq ∈ fs.leafSegs, pq.1 ≠ [] := by
  match fs with
  | .nil => simp [PFields.leafSegs]
  | .cons k v rest =>
    intro pq hpq
    cases v with
    | scalar q =>
      have hpq' : pq ∈ [([k], q)] ++ rest.leafSegs := hpq
      rcases List.mem_append.mp hpq' with hh | hr
      · simp only [List.mem_singleton] at hh
        simp [hh]
      · exact PFields.leafSegs_ne_nil rest pq hr
    | nested t =>
      have hpq' : pq ∈ t.leafSegs.map (fun x => (k :: x.1, x.2)) ++
          rest.leafSegs := hpq
      rcases List.mem_append.mp hpq' with hh | hr
      · obtain ⟨x, _, he⟩ := List.mem_map.mp hh
        rw [← he]
        simp
      · exact PFields.leafSegs_ne_nil rest pq hr
termination_by structural fs

theorem joinPath_cons {k : String} {p : List String} (h : p ≠ []) :
    joinPath (k :: p) = k ++ "__" ++ joinPath p := by
  match p with
  | [] => exact absurd rfl h
  | x :: xs => rfl

theorem PStage.leafSegs_ne_nil' (s : PStage) :
    ∀ pq ∈ s.leafSegs, pq.1 ≠ [] := by
  match s with
  | .mk fs => exact PFields.leafSegs_ne_nil fs

mutual
theorem PStage.leaf_mem_deepEntries (s : PStage) :
    ∀ pq ∈ s.leafSegs,
      (joinPath pq.1, PVal.scalar pq.2) ∈ s.deepEntries := by
  match s with
  | .mk fs =>
    intro pq h
    exact PFields.leaf_mem fs pq h
termination_by structural s

theorem PFields.leaf_mem (fs : PFields) :
    ∀ pq ∈ fs.leafSegs,
      (joinPath pq.1, PVal.scalar pq.2) ∈ fs.toList ++ fs.flatEntries := by
  match fs with
  | .nil => simp [PFields.leafSegs]
  | .cons k v rest =>
    intro pq h
    cases v with
    | scalar r =>
      have h' : pq ∈ [([k], r)] ++ rest.leafSegs := h
      rcases List.mem_append.mp h' with hh | hr
      · simp only [List.mem_singleton] at hh
        rw [hh]
        exact List.mem_append_left _ (List.mem_cons_self _ _)
      · have hrec := PFields.leaf_mem rest pq hr
        rcases List.mem_append.mp hrec with h1 | h2
        · exact List.mem_append_left _ (List.mem_cons_of_mem _ h1)
        · exact List.mem_append_right _ (List.mem_append_right _ h2)
    | nested t =>
      have h' : pq ∈ t.leafSegs.map (fun x => (k :: x.1, x.2)) ++
          rest.leafSegs := h
      rcases List.mem_append.mp h' with hh | hr
      · obtain ⟨x, hx, he⟩ := List.mem_map.mp hh
        have hne : x.1 ≠ [] := PStage.leafSegs_ne_nil' t x hx
        have hmem := PStage.leaf_mem_deepEntries t x hx
        apply List.mem_append_right
        apply List.mem_append_left
        rw [← he]
        have hjoin : joinPath (k :: x.1, x.2).1 = k ++ "__" ++ joinPath x.1 :=
          joinPath_cons hne
        rw [hjoin]
        exact List.mem_map.mpr ⟨(joinPath x.1, PVal.scalar x.2), hmem, rfl⟩
      · have hrec := PFields.leaf_mem rest pq hr
        rcases List.mem_append.mp hrec with h1 | h2
        · exact List.mem_append_left _ (List.mem_cons_of_mem _ h1)
        · exact List.mem_append_right _ (List.mem_append_right _ h2)
termination_by structural fs
end

/-- Claim C1, counterexample: on `collideStage`, whose fields `a__b` and `a`
flatten to the same final path `a__b` from two different fields,
`get_params(deep=true)` does not abort with any error — it returns an
ordinary dictionary, in which the value `5` of the literal field `a__b` has
been silently overwritten by the value `7` flattened out of the nested stage. -/
theorem get_params_collision_counterexample :
    collideStage.get_params false =
      [("a__b", PVal.scalar 5), ("a", PVal.nested innerStage)] ∧
    collideStage.get_params true =
      [("a__b", PVal.scalar 7), ("a", PVal.nested innerStage)] := by decide

/-- Claim C1, amended: on a stage whose flattening produces the same final
path from two different fields, `get_params(deep=true)` returns normally and
silently overwrites: the colliding key keeps its original position but its
value is replaced by the flattened entry. -/
theorem get_params_collision_silently_overwrites :
    (collideStage.get_params true).map Prod.fst =
      (collideStage.get_params false).map Prod.fst ∧
    ("a__b", PVal.scalar 7) ∈ collideStage.get_params true ∧
    ("a__b", PVal.scalar 5) ∉ collideStage.get_params true := by decide

/-- Claim C2, counterexample: on the spec's example stage (children `A` and
`B` under fields `a` and `b`), `get_params(true)` does not yield exactly the
two leaf entries — the dictionary also keeps the entries `a ↦ A` and `b ↦ B`
holding the nested stages themselves. -/
theorem get_params_example_counterexample :
    exampleStage.get_params true ≠
      [("a__alpha", PVal.scalar (mkRat 1 10)), ("b__beta", PVal.scalar 2)] ∧
    ("a", PVal.nested stageA) ∈ exampleStage.get_params true ∧
    ("b", PVal.nested stageB) ∈ exampleStage.get_params true := by decide

/-- Claim C2, amended: on every composition whose field names are nonempty,
underscore-free identifier segments, pairwise distinct at each level (which
rules out path collisions), `get_params(deep=true)` returns exactly the
stage's own fields followed by the prefixed flattenings of its nested stages
(`deepEntries`); all paths are distinct; and every leaf hyperparameter is
represented by exactly one entry, keyed by the `__`-join of its segment path
— one segment per nesting level, so the segment count of the path equals the
leaf's nesting depth. -/
theorem get_params_deep_flattening (s : PStage) (h : s.wellFormed = true) :
    s.get_params true = s.deepEntries ∧
    ((s.get_params true).map Prod.fst).Nodup ∧
    ∀ pq ∈ s.leafSegs,
      (joinPath pq.1, PVal.scalar pq.2) ∈ s.get_params true ∧
      ((s.get_params true).map Prod.fst).count (joinPath pq.1) = 1 := by
  have he := PStage.get_params_deep_eq s h
  have hn : ((s.get_params true).map Prod.fst).Nodup := by
    rw [he]
    exact PStage.deepKeys_nodup s h
  refine ⟨he, hn, fun pq hpq => ?_⟩
  have hm : (joinPath pq.1, PVal.scalar pq.2) ∈ s.get_params true := by
    rw [he]
    exact PStage.leaf_mem_deepEntries s pq hpq
  exact ⟨hm, List.count_eq_one_of_mem hn (List.mem_map.mpr ⟨_, hm, rfl⟩)⟩

/-- Claim C2, witness: the example composition is well-formed, and its deep
parameters are its two leaf entries `a__alpha ↦ 0.1` and `b__beta ↦ 2`
(paths of two segments for leaves at depth two) together with the two
nested-stage entries `a ↦ A` and `b ↦ B`. -/
theorem get_params_deep_flattening_witness :
    exampleStage.get_params true = exampleStage.deepEntries ∧
    exampleStage.deepEntries =
      [("a", PVal.nested stageA), ("b", PVal.nested stageB),
       ("a__alpha", PVal.scalar (mkRat 1 10)), ("b__beta", PVal.scalar 2)] ∧
    exampleStage.leafSegs =
      [(["a", "alpha"], mkRat 1 10), (["b", "beta"], 2)] :=
  ⟨(get_params_deep_flattening exampleStage (by decide)).1,
   by decide, by decide⟩

/-- Claim C3: for every stage that inherits the default `fit_transform`,
`fit_transform(X, y)` is exactly `fit(X, y)` followed by `transform(X)` on
the same (mutated) instance — both the resulting table and the resulting
instance state agree with the spec-side sequencing. -/
theorem fit_transform_refines_fit_then_transform {σ τ lbl : Type}
    (m : BasePreProcessor σ τ lbl) (s : σ) (X : τ) (y : Option lbl) :
    m.fit_transform s X y = fitThenTransformSpec m s X y ∧
    (m.fit_transform s X y).2 = m.transform (m.fit s X y) X :=
  ⟨rfl, rfl⟩

/-- Claim C4, counterexample: on a freshly constructed
`ShapeChangerPreProcessor`, `get_original_features` does not fail with any
not-yet-run error — it silently returns the empty list. -/
theorem fresh_shape_changer_counterexample :
    ShapeChangerPreProcessor.init.get_original_features ≠
      Except.error LineageError.notFittedError ∧
    ShapeChangerPreProcessor.init.get_original_features = Except.ok [] :=
  ⟨fun h => Except.noConfusion h, rfl⟩

/-- Claim C4, amended: on a freshly constructed stage on which no transform
has completed, all three lineage accessors return the empty list without
signalling any error; no `NotFittedError` mechanism exists in the code. -/
theorem fresh_shape_changer_accessors_return_empty :
    ShapeChangerPreProcessor.init.get_original_features = Except.ok [] ∧
    ShapeChangerPreProcessor.init.get_new_features = Except.ok [] ∧
    ShapeChangerPreProcessor.init.get_removed_features = Except.ok [] :=
  ⟨rfl, rfl, rfl⟩

/-- Claim C5: `PipelineAdapter.transform` returns the input table unchanged
when the wrapped object exposes no transform capability, and returns the
wrapped object's transform result when it does. -/
theorem adapter_transform_spec {σ τ lbl ρ π : Type}
    (a : PipelineAdapter σ τ lbl ρ π) (X : τ) :
    (a.obj.transform = none → a.transform X = X) ∧
    (∀ f, a.obj.transform = some f → a.transform X = f a.obj.state X) := by
  refine ⟨fun h => ?_, fun f h => ?_⟩ <;>
    simp [PipelineAdapter.transform, h]

/-- Claim C5, witness: the adapter around the capability-free object passes
the table `42` through unchanged; around the rich object it delegates. -/
theorem adapter_transform_spec_witness :
    PipelineAdapter.transform
      (⟨bareObject⟩ : PipelineAdapter Nat Nat Nat Nat Nat) 42 = 42 ∧
    PipelineAdapter.transform
      (⟨richObject⟩ : PipelineAdapter Nat Nat Nat Nat Nat) 42 = 44 :=
  ⟨(adapter_transform_spec ⟨bareObject⟩ 42).1 rfl,
   (adapter_transform_spec ⟨richObject⟩ 42).2 _ rfl⟩

/-- Claim C6: `predict` and `predict_proba` delegate to the wrapped object
when the corresponding capability is present, and otherwise fail with an
`AttributeError` whose message names the missing capability. -/
theorem adapter_predict_spec {σ τ lbl ρ π : Type}
    (a : PipelineAdapter σ τ lbl ρ π) (X : τ) :
    (∀ f, a.obj.predict = some f → a.predict X = .ok (f a.obj.state X)) ∧
    (a.obj.predict = none →
      a.predict X =
        .error (.attributeError "Underlying object has no predict method")) ∧
    (∀ f, a.obj.predict_proba = some f →
      a.predict_proba X = .ok (f a.obj.state X)) ∧
    (a.obj.predict_proba = none →
      a.predict_proba X =
        .error
          (.attributeError "Underlying object has no predict_proba method")) ∧
    "predict" ∈ msgWords "Underlying object has no predict method" ∧
    "predict_proba" ∈
      msgWords "Underlying object has no predict_proba method" := by
  refine ⟨fun f h => ?_, fun h => ?_, fun f h => ?_, fun h => ?_,
    by decide, by decide⟩ <;>
    simp [PipelineAdapter.predict, PipelineAdapter.predict_proba, h]

/-- Claim C6, witness: the rich object's predictions are delegated; the
capability-free object raises the naming `AttributeError`s. -/
theorem adapter_predict_spec_witness :
    PipelineAdapter.predict
      (⟨richObject⟩ : PipelineAdapter Nat Nat Nat Nat Nat) 42 =
      Except.ok 45 ∧
    PipelineAdapter.predict
      (⟨bareObject⟩ : PipelineAdapter Nat Nat Nat Nat Nat) 42 =
      Except.error
        (.attributeError "Underlying object has no predict method") ∧
    PipelineAdapter.predict_proba
      (⟨bareObject⟩ : PipelineAdapter Nat Nat Nat Nat Nat) 42 =
      Except.error
        (.attributeError "Underlying object has no predict_proba method") :=
  ⟨(adapter_predict_spec ⟨richObject⟩ 42).1 _ rfl,
   (adapter_predict_spec ⟨bareObject⟩ 42).2.1 rfl,
   (adapter_predict_spec ⟨bareObject⟩ 42).2.2.2.1 rfl⟩

/-- Claim C7: a `BaseModel` that does not override `predict_proba` fails on
every input with `NotImplementedError` carrying the message
"This model does not support probability predictions" (which, lower-cased,
is letter for letter the message stated by the spec). -/
theorem base_model_predict_proba_default {σ τ ρ lbl : Type}
    (m : BaseModel σ τ ρ lbl) (s : σ) (X : τ)
    (h : m.predict_proba_impl = none) :
    m.predict_proba s X =
      .error (.notImplementedError
        "This model does not support probability predictions") ∧
    "This model does not support probability predictions".data.map
        Char.toLower =
      "this model does not support probability predictions".data := by
  refine ⟨?_, by decide⟩
  simp [BaseModel.predict_proba, h]

/-- Claim C7, witness: the concrete override-free model fails as stated. -/
theorem base_model_predict_proba_default_witness :
    BaseModel.predict_proba plainModel 0 3 =
      .error (.notImplementedError
        "This model does not support probability predictions") :=
  (base_model_predict_proba_default plainModel 0 3 rfl).1

/-- Claim C8: `PipelineAdapter.fit` invokes the wrapped object's combined
`fit_transform` when it exposes one (discarding the table that call returns),
otherwise its plain `fit`; in both cases the call returns the adapter itself
(holding the mutated wrapped object), not the wrapped call's result. -/
theorem adapter_fit_spec {σ τ lbl ρ π : Type}
    (a : PipelineAdapter σ τ lbl ρ π) (X : τ) (y : Option lbl) :
    (∀ ft, a.obj.fit_transform = some ft →
      a.fit X y = .ok ⟨{ a.obj with state := (ft a.obj.state X y).1 }⟩) ∧
    (a.obj.fit_transform = none → ∀ f, a.obj.fit = some f →
      a.fit X y = .ok ⟨{ a.obj with state := f a.obj.state X y }⟩) := by
  refine ⟨fun ft h => ?_, fun h f hf => ?_⟩ <;>
    simp [PipelineAdapter.fit, h, *]

/-- Claim C8, witness: on the rich object `fit` runs `fit_transform`
(state `5 + 10`, the returned table discarded); on the fit-only object it
runs plain `fit` (state `5 + 1`); both return the adapter. -/
theorem adapter_fit_spec_witness :
    PipelineAdapter.fit
      (⟨richObject⟩ : PipelineAdapter Nat Nat Nat Nat Nat) 1 none =
      Except.ok ⟨{ richObject with state := 15 }⟩ ∧
    PipelineAdapter.fit
      (⟨fitOnlyObject⟩ : PipelineAdapter Nat Nat Nat Nat Nat) 1 none =
      Except.ok ⟨{ fitOnlyObject with state := 6 }⟩ :=
  ⟨(adapter_fit_spec ⟨richObject⟩ 1 none).1 _ rfl,
   (adapter_fit_spec ⟨fitOnlyObject⟩ 1 none).2 rfl _ rfl⟩

/-- Claim C9: when the wrapped object exposes `get_params`, a deep request
returns its deep parameter dictionary with every key re-keyed under the fixed
prefix `obj` plus the `__` delimiter, and a shallow request returns the
wrapped object itself as the single opaque entry `obj`. -/
theorem adapter_get_params_with_capability {σ τ lbl ρ π : Type}
    (a : PipelineAdapter σ τ lbl ρ π) (g : σ → Bool → List (String × π))
    (h : a.obj.get_params = some g) :
    a.get_params true =
      (g a.obj.state true).map (fun kv => ("obj__" ++ kv.1, Sum.inl kv.2)) ∧
    a.get_params false = [("obj", Sum.inr a.obj)] := by
  refine ⟨?_, ?_⟩ <;> simp [PipelineAdapter.get_params, h]

/-- Claim C9, witness: the rich object's single deep parameter `alpha ↦ 7`
is re-exported as `obj__alpha ↦ 7`; shallow introspection returns the object. -/
theorem adapter_get_params_with_capability_witness :
    PipelineAdapter.get_params
      (⟨richObject⟩ : PipelineAdapter Nat Nat Nat Nat Nat) true =
      [("obj__alpha", Sum.inl 7)] ∧
    PipelineAdapter.get_params
      (⟨richObject⟩ : PipelineAdapter Nat Nat Nat Nat Nat) false =
      [("obj", Sum.inr richObject)] :=
  ⟨(adapter_get_params_with_capability ⟨richObject⟩ _ rfl).1,
   (adapter_get_params_with_capability ⟨richObject⟩ _ rfl).2⟩

/-- Claim C10: when the wrapped object exposes no `get_params`, the adapter
returns the single-entry dictionary `obj ↦ wrapped object` for every value of
`deep`; the call cannot fail (its type is raise-free). -/
theorem adapter_get_params_without_capability {σ τ lbl ρ π : Type}
    (a : PipelineAdapter σ τ lbl ρ π) (h : a.obj.get_params = none)
    (deep : Bool) :
    a.get_params deep = [("obj", Sum.inr a.obj)] := by
  simp [PipelineAdapter.get_params, h]

/-- Claim C10, witness: the capability-free object is returned opaquely for
both deep and shallow requests. -/
theorem adapter_get_params_without_capability_witness :
    PipelineAdapter.get_params
      (⟨bareObject⟩ : PipelineAdapter Nat Nat Nat Nat Nat) true =
      [("obj", Sum.inr bareObject)] ∧
    PipelineAdapter.get_params
      (⟨bareObject⟩ : PipelineAdapter Nat Nat Nat Nat Nat) false =
      [("obj", Sum.inr bareObject)] :=
  ⟨adapter_get_params_without_capability ⟨bareObject⟩ rfl true,
   adapter_get_params_without_capability ⟨bareObject⟩ rfl false⟩

end MiniAutoML
